import Mathlib

/-!
Verification of the tomplayer audio playback core.

The definitions below are a shallow embedding of the C++ sources:
 - `src/buffer/audio_ring_buffer.{h,cpp}` (SPSC frame ring buffer),
 - `src/audio/wasapi_output.{h,cpp}` (render cycle),
 - `src/engine/player_engine.{h,cpp}` (command-driven state machine).

Machine integers are modelled as `Nat`/`Int`; the 64-bit cursor stores apply an
explicit `% 2^64` (the only place where overflow can occur).  Interleaved
float32 samples are modelled as rationals: the ring buffer and the render path
only copy samples, never compute with them.  Samples live in storage modelled
as a total function `Nat → ℚ`; only indices below `capacity * channels` are
ever read, mirroring the `std::vector<float>` backing store.
-/

namespace Tomplayer

/-- Modulus of the 64-bit unsigned cursor fields (`std::atomic<uint64_t>`). -/
def U64 : Nat := 2 ^ 64

/-- State of an `AudioRingBuffer` (src/buffer/audio_ring_buffer.h):
capacity and channel count fixed at construction, zero-initialised sample
storage of `capacity * channels` floats, monotonic 64-bit cursors counted in
frames, and the three diagnostic counters. -/
structure RingState where
  capacity : Nat
  channels : Nat
  storage : Nat → ℚ
  writePos : Nat
  readPos : Nat
  underrunCount : Nat
  overrunCount : Nat
  invariantViolationCount : Nat

/-- Embeds `AudioRingBuffer::AudioRingBuffer(capacity_frames, channels)`:
cursors and counters start at zero, storage is value-initialised. -/
def initRing (capacityFrames channels : Nat) : RingState :=
  { capacity := capacityFrames
    channels := channels
    storage := fun _ => 0
    writePos := 0
    readPos := 0
    underrunCount := 0
    overrunCount := 0
    invariantViolationCount := 0 }

/-- Embeds `AudioRingBuffer::available_to_read_frames_impl` in the release (NDEBUG)
build: returns the available frame count together with the number of
invariant-violation increments (0 or 1).  `write < read` clamps to 0;
a difference above capacity clamps to `capacity`; both bump the counter. -/
def availableToReadFramesImpl (capacity writePos readPos : Nat) : Nat × Nat :=
  if writePos < readPos then (0, 1)
  else if capacity < writePos - readPos then (capacity, 1)
  else (writePos - readPos, 0)

/-- Value returned by `AudioRingBuffer::available_to_read_frames`. -/
def availableToReadFrames (s : RingState) : Nat :=
  (availableToReadFramesImpl s.capacity s.writePos s.readPos).1

/-- Value returned by `AudioRingBuffer::available_to_write_frames`:
`capacity - available_to_read`. -/
def availableToWriteFrames (s : RingState) : Nat :=
  s.capacity - (availableToReadFramesImpl s.capacity s.writePos s.readPos).1

/-- One `std::memcpy(dst + dstOffset, src + srcOffset, count * sizeof(float))`
on sample storage. -/
def memcpyAt (dst : Nat → ℚ) (dstOffset : Nat) (src : Nat → ℚ)
    (srcOffset count : Nat) : Nat → ℚ :=
  fun j => if dstOffset ≤ j ∧ j < dstOffset + count then
    src (srcOffset + (j - dstOffset)) else dst j

/-- Embeds `AudioRingBuffer::write_frames(src, frames_requested)`, returning the
frame count written and the successor state.  Mirrors the source: early
return 0 when storage is unallocated or a dimension is zero; compute
availability through `available_to_read_frames_impl` (whose violation
increment lands on the mutable counter); write `min(requested, available)`
frames as at most two contiguous chunks; publish the new write cursor;
bump the overrun counter exactly once on a short write. -/
def writeFrames (s : RingState) (srcInterleaved : List ℚ)
    (framesRequested : Nat) : Nat × RingState :=
  if s.capacity * s.channels = 0 ∨ s.capacity = 0 ∨ s.channels = 0 then
    (0, s)
  else
    let availPair := availableToReadFramesImpl s.capacity s.writePos s.readPos
    let s₁ := { s with invariantViolationCount :=
                         s.invariantViolationCount + availPair.2 }
    let availableWrite := s.capacity - availPair.1
    let framesToWrite := min framesRequested availableWrite
    if framesToWrite = 0 then
      if framesRequested ≠ 0 then
        (0, { s₁ with overrunCount := s₁.overrunCount + 1 })
      else
        (0, s₁)
    else
      let writeIndex := s.writePos % s.capacity
      let framesUntilEnd := s.capacity - writeIndex
      let firstChunk := min framesToWrite framesUntilEnd
      let secondChunk := framesToWrite - firstChunk
      let sampleOffset := writeIndex * s.channels
      let firstSamples := firstChunk * s.channels
      let secondSamples := secondChunk * s.channels
      let srcFun : Nat → ℚ := fun i => srcInterleaved.getD i 0
      let afterFirst := memcpyAt s.storage sampleOffset srcFun 0 firstSamples
      let afterSecond := memcpyAt afterFirst 0 srcFun firstSamples secondSamples
      (framesToWrite,
       { s₁ with
           storage := afterSecond
           writePos := (s.writePos + framesToWrite) % U64
           overrunCount := if framesToWrite < framesRequested then
                             s₁.overrunCount + 1 else s₁.overrunCount })

/-- Embeds `AudioRingBuffer::read_frames(dst, frames_requested)`, returning the frame
count read, the samples copied into the destination (its written prefix), and
the successor state.  Symmetric to `writeFrames`; the ring storage is never
modified. -/
def readFrames (s : RingState) (framesRequested : Nat) :
    Nat × List ℚ × RingState :=
  if s.capacity * s.channels = 0 ∨ s.capacity = 0 ∨ s.channels = 0 then
    (0, [], s)
  else
    let availPair := availableToReadFramesImpl s.capacity s.writePos s.readPos
    let s₁ := { s with invariantViolationCount :=
                         s.invariantViolationCount + availPair.2 }
    let framesToRead := min framesRequested availPair.1
    if framesToRead = 0 then
      if framesRequested ≠ 0 then
        (0, [], { s₁ with underrunCount := s₁.underrunCount + 1 })
      else
        (0, [], s₁)
    else
      let readIndex := s.readPos % s.capacity
      let framesUntilEnd := s.capacity - readIndex
      let firstChunk := min framesToRead framesUntilEnd
      let sampleOffset := readIndex * s.channels
      let firstSamples := firstChunk * s.channels
      let out := (List.range (framesToRead * s.channels)).map fun j =>
        if j < firstSamples then s.storage (sampleOffset + j)
        else s.storage (j - firstSamples)
      (framesToRead, out,
       { s₁ with
           readPos := (s.readPos + framesToRead) % U64
           underrunCount := if framesToRead < framesRequested then
                              s₁.underrunCount + 1 else s₁.underrunCount })

/-- Embeds `AudioRingBuffer::reset()`: clears both cursors and all counters.
Storage contents are untouched. -/
def ringReset (s : RingState) : RingState :=
  { s with writePos := 0, readPos := 0, underrunCount := 0,
           overrunCount := 0, invariantViolationCount := 0 }

/-- One producer/consumer call on the ring (SPSC histories linearise to such
a sequence). -/
inductive RingOp where
  | write (src : List ℚ) (framesRequested : Nat)
  | read (framesRequested : Nat)

/-- Effect of one call on the ring state. -/
def ringStep (s : RingState) : RingOp → RingState
  | .write src n => (writeFrames s src n).2
  | .read n => (readFrames s n).2.2

/-- Ring state after a sequence of calls. -/
def runOps (s : RingState) : List RingOp → RingState
  | [] => s
  | op :: rest => runOps (ringStep s op) rest

/-- Concatenation of all samples returned by the `read_frames` calls of a
trace. -/
def runReads (s : RingState) : List RingOp → List ℚ
  | [] => []
  | .write src n :: rest => runReads (ringStep s (.write src n)) rest
  | .read n :: rest =>
      (readFrames s n).2.1 ++ runReads (ringStep s (.read n)) rest

/-- Total number of frames requested across the write calls of a trace; the
write cursor can advance by at most this much. -/
def totalWriteRequest : List RingOp → Nat
  | [] => 0
  | .write _ n :: rest => n + totalWriteRequest rest
  | .read _ :: rest => totalWriteRequest rest

/-- The documented cursor invariant of `AudioRingBuffer`:
`write_pos_frames >= read_pos_frames` and the difference is at most the
capacity. -/
def cursorsOk (s : RingState) : Prop :=
  s.readPos ≤ s.writePos ∧ s.writePos - s.readPos ≤ s.capacity

instance (s : RingState) : Decidable (cursorsOk s) := by
  unfold cursorsOk; infer_instance

/-- Frames requested by a single call if it is a write. -/
def writeRequest : RingOp → Nat
  | .write _ n => n
  | .read _ => 0

/-- Storage sample index holding the `i`-th buffered sample (counting from the
read cursor): wrap-around indexing at `(cursor mod capacity)` over the
`capacity * channels` samples of storage. -/
def sampleSlot (s : RingState) (i : Nat) : Nat :=
  ((s.readPos % s.capacity) * s.channels + i) % (s.capacity * s.channels)

/-- Abstraction relation between a ring state and the queue of interleaved
samples it currently buffers: the cursors satisfy the documented invariant,
the queue holds `(write - read) * channels` samples, and the `i`-th queued
sample sits at `sampleSlot i` in storage. -/
def ringMatches (s : RingState) (pending : List ℚ) : Prop :=
  s.readPos ≤ s.writePos ∧ s.writePos - s.readPos ≤ s.capacity ∧
  pending.length = (s.writePos - s.readPos) * s.channels ∧
  ∀ i, i < pending.length → pending.getD i 0 = s.storage (sampleSlot s i)

/-- A trace whose write calls always fit: each `write_frames` request is at
most `available_to_write_frames()` at the moment of the call and carries a
source buffer of exactly `frames * channels` samples. -/
def writesFit (s : RingState) : List RingOp → Bool
  | [] => true
  | .write src n :: rest =>
      decide (n ≤ availableToWriteFrames s) &&
        decide (src.length = n * s.channels) &&
        writesFit (ringStep s (.write src n)) rest
  | .read n :: rest => writesFit (ringStep s (.read n)) rest

/-- Reference FIFO: the queue of buffered samples and the concatenated read
results, evolved over the same trace of calls. -/
def absRun (channels : Nat) (pending : List ℚ) : List RingOp → List ℚ × List ℚ
  | [] => (pending, [])
  | .write src _ :: rest => absRun channels (pending ++ src) rest
  | .read n :: rest =>
      ((absRun channels
          (pending.drop (min n (pending.length / channels) * channels)) rest).1,
       pending.take (min n (pending.length / channels) * channels) ++
         (absRun channels
           (pending.drop (min n (pending.length / channels) * channels)) rest).2)

/-- Concatenation of the source samples of all write calls of a trace. -/
def writesConcat : List RingOp → List ℚ
  | [] => []
  | .write src _ :: rest => src ++ writesConcat rest
  | .read _ :: rest => writesConcat rest

/-- Sample indices of storage written by `write_frames(_, framesRequested)`
from state `s`: the two destination ranges of its `memcpy` calls, computed
from the same internal quantities as `writeFrames`. -/
def writeTouched (s : RingState) (framesRequested k : Nat) : Bool :=
  if s.capacity * s.channels = 0 ∨ s.capacity = 0 ∨ s.channels = 0 then false
  else
    let availPair := availableToReadFramesImpl s.capacity s.writePos s.readPos
    let framesToWrite := min framesRequested (s.capacity - availPair.1)
    if framesToWrite = 0 then false
    else
      let writeIndex := s.writePos % s.capacity
      let firstSamples := min framesToWrite (s.capacity - writeIndex) * s.channels
      let secondSamples :=
        (framesToWrite - min framesToWrite (s.capacity - writeIndex)) * s.channels
      decide (writeIndex * s.channels ≤ k ∧
          k < writeIndex * s.channels + firstSamples) ||
        decide (k < secondSamples)

/-- Embeds `tomplayer::wasapi::SampleFormat` (src/audio/wasapi_output.h). -/
inductive SampleFormat where
  | float32
  | pcm16
  | unsupported
deriving DecidableEq

/-- Outcome of the endpoint API calls available to one render cycle
(`detail::RenderApi` slots): whether the three function pointers are wired,
the result of `GetCurrentPadding` (`none` = failed HRESULT), and whether
`GetBuffer` succeeds with non-null data. -/
structure RenderApiEnv where
  wired : Bool
  paddingResult : Option Nat
  getBufferOk : Bool

/-- Observable effects of one `WasapiOutput::RenderAudio` cycle: the frames
passed to each `GetBuffer` call, each `ReleaseBuffer(frames, silent)` call,
the frames obtained from the ring, the samples placed in the endpoint buffer,
the ring state afterwards, and the two underrun counter increments. -/
structure RenderCycleResult where
  getBufferCalls : List Nat
  releaseCalls : List (Nat × Bool)
  framesProduced : Nat
  outputSamples : List ℚ
  ring : Option RingState
  underrunWakeInc : Nat
  underrunFrameInc : Nat

/-- Embeds `detail::ConsumeRingBufferFloat` (src/audio/wasapi_output.cpp): read up to
`framesRequested` frames from the ring (0 if no ring is attached), zero-fill
the destination tail on a shortfall, and on any shortfall bump the underrun
wake counter by 1 and the underrun frame counter by the shortfall.  Returns
(frames read, destination contents, ring afterwards, wake inc, frame inc). -/
def consumeRingBufferFloat (ring : Option RingState)
    (framesRequested channels : Nat) :
    Nat × List ℚ × Option RingState × Nat × Nat :=
  if framesRequested = 0 ∨ channels = 0 then (0, [], ring, 0, 0)
  else
    let readResult : Nat × List ℚ × Option RingState :=
      match ring with
      | some rb => ((readFrames rb framesRequested).1,
                    (readFrames rb framesRequested).2.1,
                    some (readFrames rb framesRequested).2.2)
      | none => (0, [], none)
    let framesRead := readResult.1
    let dst := readResult.2.1 ++
      List.replicate ((framesRequested - framesRead) * channels) 0
    if framesRead < framesRequested then
      (framesRead, dst, readResult.2.2, 1, framesRequested - framesRead)
    else
      (framesRead, dst, readResult.2.2, 0, 0)

/-- Embeds `WasapiOutput::RenderAudio` (src/audio/wasapi_output.cpp, lines 389-428):
return early when the API is unwired, the padding query fails, padding fills
the endpoint buffer, or `GetBuffer` fails; release silently for any
non-Float32 format; otherwise fill from the ring via
`ConsumeRingBufferFloat` and release with the silent flag exactly when zero
frames were read. -/
def renderAudio (api : RenderApiEnv) (bufferFrames : Nat) (fmt : SampleFormat)
    (channels : Nat) (ring : Option RingState) : RenderCycleResult :=
  if ¬api.wired then ⟨[], [], 0, [], ring, 0, 0⟩
  else
    match api.paddingResult with
    | none => ⟨[], [], 0, [], ring, 0, 0⟩
    | some padding =>
      if bufferFrames ≤ padding then ⟨[], [], 0, [], ring, 0, 0⟩
      else
        let framesAvailable := bufferFrames - padding
        if framesAvailable = 0 then ⟨[], [], 0, [], ring, 0, 0⟩
        else if ¬api.getBufferOk then ⟨[framesAvailable], [], 0, [], ring, 0, 0⟩
        else if fmt ≠ SampleFormat.float32 then
          ⟨[framesAvailable], [(framesAvailable, true)], 0, [], ring, 0, 0⟩
        else
          ⟨[framesAvailable],
           [(framesAvailable,
             (consumeRingBufferFloat ring framesAvailable channels).1 == 0)],
           (consumeRingBufferFloat ring framesAvailable channels).1,
           (consumeRingBufferFloat ring framesAvailable channels).2.1,
           (consumeRingBufferFloat ring framesAvailable channels).2.2.1,
           (consumeRingBufferFloat ring framesAvailable channels).2.2.2.1,
           (consumeRingBufferFloat ring framesAvailable channels).2.2.2.2⟩

/-- Truncation toward zero of a rational, as a C cast from float to int16
behaves on in-range values. -/
def ratTruncTowardZero (q : ℚ) : ℤ :=
  if q < 0 then -(⌊-q⌋) else ⌊q⌋

/-- Modelled from the spec: `detail::ConvertFloatToPcm16` is declared in
src/audio/wasapi_output.h (line 58) and exercised by
tests/wasapi_output_tests.cpp, but its definition is not among the sources
here.  Spec section 4.4 step 6: clamp each sample to `[-1, 1]` and scale by
32767 to produce int16.  The int16 production truncates toward zero, which is
what the repository's own tests require (`0.5 ↦ 16383`, `-0.5 ↦ -16383`). -/
def convertFloatToPcm16Sample (f : ℚ) : ℤ :=
  ratTruncTowardZero (max (-1) (min 1 f) * 32767)

/-- Modelled from the spec: elementwise `detail::ConvertFloatToPcm16`. -/
def convertFloatToPcm16 (xs : List ℚ) : List ℤ :=
  xs.map convertFloatToPcm16Sample

/-- The frame source of `detail::RenderAudioCore`: whether the callback
pointer is non-null, the samples it fills for a `frames × channels` request,
and its boolean result. -/
structure RenderSource where
  present : Bool
  fill : Nat → Nat → List ℚ
  ok : Bool

/-- Observable effects of one `detail::RenderAudioCore` cycle. -/
structure CoreResult where
  getBufferCalls : List Nat
  releaseCalls : List (Nat × Bool)
  floatOut : List ℚ
  pcm16Out : List ℤ

/-- Modelled from the spec: `detail::RenderAudioCore` is declared in
src/audio/wasapi_output.h (lines 59-65) and exercised by
tests/wasapi_output_tests.cpp, but its definition is not among the sources
here.  Spec section 4.4 steps 1-7: query padding (failure → no-op cycle);
return if padding fills the endpoint buffer; request exactly
`buffer_frames - padding` frames; on `GetBuffer` failure return without
releasing; Float32 renders via the callback, releasing silently when no
frames were produced (absent or false callback); Pcm16 first renders into
the pre-allocated float scratch buffer and converts each sample to int16
(a missing scratch buffer forces a silent release, per the tests);
any other format releases silently. -/
def renderAudioCore (api : RenderApiEnv) (src : RenderSource)
    (bufferFrames channels : Nat) (fmt : SampleFormat)
    (scratchPresent : Bool) : CoreResult :=
  match api.paddingResult with
  | none => ⟨[], [], [], []⟩
  | some padding =>
    if bufferFrames ≤ padding then ⟨[], [], [], []⟩
    else
      let framesAvailable := bufferFrames - padding
      if framesAvailable = 0 then ⟨[], [], [], []⟩
      else if ¬api.getBufferOk then ⟨[framesAvailable], [], [], []⟩
      else
        match fmt with
        | .float32 =>
            if src.present && src.ok then
              ⟨[framesAvailable], [(framesAvailable, false)],
               src.fill framesAvailable channels, []⟩
            else
              ⟨[framesAvailable], [(framesAvailable, true)],
               List.replicate (framesAvailable * channels) 0, []⟩
        | .pcm16 =>
            if ¬scratchPresent then
              ⟨[framesAvailable], [(framesAvailable, true)], [], []⟩
            else if src.present && src.ok then
              ⟨[framesAvailable], [(framesAvailable, false)],
               src.fill framesAvailable channels,
               convertFloatToPcm16 (src.fill framesAvailable channels)⟩
            else
              ⟨[framesAvailable], [(framesAvailable, true)], [], []⟩
        | .unsupported =>
            ⟨[framesAvailable], [(framesAvailable, true)], [], []⟩

/-- Embeds `PlayerEngine::DecodeMode` (src/engine/player_engine.h). -/
inductive DecodeMode where
  | stopped
  | running
  | paused
  | quit
deriving DecidableEq

/-- Embeds `PlayerEngine::PlayerState` (src/engine/player_engine.h). -/
inductive PlayerState where
  | idle
  | stopped
  | starting
  | playing
  | paused
  | seeking
  | stopping
  | finished
  | error
deriving DecidableEq

/-- Embeds `PlayerEngine::Command` (src/engine/player_engine.h): the tagged union of
engine commands; `Seek` carries seconds. -/
inductive EngCommand where
  | play
  | pause
  | resume
  | stop
  | seek (seconds : ℚ)
  | replay
  | quit

/-- Engine-owned state mutated only on the engine thread
(src/engine/player_engine.cpp): the player state, the `DecodeControl`
triple (64-bit epoch, mode, signed target frame), the render clock fields
(`render_frame_offset_` and the output's rendered-frames counter), the cached
device format, the output lifecycle flags, and the owned ring buffer. -/
structure EngineState where
  state : PlayerState
  epoch : Nat
  decodeMode : DecodeMode
  targetFrame : ℤ
  renderFrameOffset : ℤ
  renderedFrames : Nat
  sampleRate : Nat
  channels : Nat
  outputInitialized : Bool
  outputStarted : Bool
  ring : RingState

/-- Environment outcomes for engine transitions: whether WASAPI device
initialization would succeed and with which mix format, and whether
`WasapiOutput::start()` would succeed. -/
structure EngineEnv where
  initOk : Bool
  deviceRate : Nat
  deviceChannels : Nat
  startOk : Bool

/-- Embeds `PlayerEngine::bump_epoch`: `fetch_add(1)` on the 64-bit epoch. -/
def bumpEpoch (s : EngineState) : EngineState :=
  { s with epoch := (s.epoch + 1) % U64 }

/-- Embeds `PlayerEngine::set_decode_mode`. -/
def setDecodeMode (m : DecodeMode) (s : EngineState) : EngineState :=
  { s with decodeMode := m }

/-- Embeds `PlayerEngine::set_target_frame`. -/
def setTargetFrame (t : ℤ) (s : EngineState) : EngineState :=
  { s with targetFrame := t }

/-- Embeds `PlayerEngine::StopOutputAndResetRenderedFrames`: stop the output and
zero its rendered-frames counter. -/
def stopOutputAndResetRenderedFrames (s : EngineState) : EngineState :=
  { s with outputStarted := false, renderedFrames := 0 }

/-- Embeds `PlayerEngine::PauseDecodeAndWaitIdle`: set mode Paused, then wait for
the decode-idle flag (the wait changes no engine-visible state). -/
def pauseDecodeAndWaitIdle (s : EngineState) : EngineState :=
  setDecodeMode DecodeMode.paused s

/-- Embeds `PlayerEngine::StopDecodeAndWaitIdle`. -/
def stopDecodeAndWaitIdle (s : EngineState) : EngineState :=
  setDecodeMode DecodeMode.stopped s

/-- Embeds `PlayerEngine::DrainRingBuffer` loop body, with fuel: read
`min(available, 1024)` frames until the ring reports empty.  Each nonempty
iteration reads at least one frame, so `available_to_read_frames()` is
enough fuel. -/
def drainRingLoop (r : RingState) : Nat → RingState
  | 0 => r
  | fuel + 1 =>
      if availableToReadFrames r = 0 then r
      else drainRingLoop
        (readFrames r (min (availableToReadFrames r) 1024)).2.2 fuel

/-- Embeds `PlayerEngine::DrainRingBuffer`. -/
def drainRing (r : RingState) : RingState :=
  drainRingLoop r (availableToReadFrames r)

/-- Embeds `PlayerEngine::ResetBufferingState`: drain the ring, `reset()` it, and
zero the buffered-seconds gauge (the gauge is derived data and not part of
the modelled state). -/
def resetBufferingState (s : EngineState) : EngineState :=
  { s with ring := ringReset (drainRing s.ring) }

/-- Embeds `PlayerEngine::BeginNewDecodeEpochAndSetTarget`: bump the epoch, then
publish `target_frame` (−1 when no target). -/
def beginNewDecodeEpochAndSetTarget (t : Option ℤ) (s : EngineState) :
    EngineState :=
  setTargetFrame (t.getD (-1)) (bumpEpoch s)

/-- Embeds `PlayerEngine::CommitPaused`: stop the output, commit state Paused, set
decode mode Paused; buffers are retained. -/
def commitPaused (s : EngineState) : EngineState :=
  setDecodeMode DecodeMode.paused
    { s with outputStarted := false, state := PlayerState.paused }

/-- Embeds `PlayerEngine::EnsureOutputInitialized`: true immediately when already
initialized; otherwise initialize the default device (environment-decided),
reject a zero rate or channel count, cache the device format, pause decode
and wait idle, drain and reset the ring, zero `render_frame_offset_` and the
rendered-frames counter, and mark the output initialized. -/
def ensureOutputInitialized (env : EngineEnv) (s : EngineState) :
    Bool × EngineState :=
  if s.outputInitialized then (true, s)
  else if ¬env.initOk then (false, s)
  else if env.deviceRate = 0 ∨ env.deviceChannels = 0 then (false, s)
  else
    (true,
     { setDecodeMode DecodeMode.paused s with
         sampleRate := env.deviceRate
         channels := env.deviceChannels
         ring := ringReset (drainRing s.ring)
         renderFrameOffset := 0
         renderedFrames := 0
         outputInitialized := true })

/-- Embeds `PlayerEngine::PrimeAndStart`: after the priming wait (whose exit
condition is modelled by `primeWaitDone`), call `output_->start()`; the
threshold and allow-empty flag govern only the wait. -/
def primeAndStart (env : EngineEnv) (thresholdFrames : Nat)
    (allowEmpty : Bool) (s : EngineState) : Bool × EngineState :=
  if env.startOk then (true, { s with outputStarted := true }) else (false, s)

/-- Embeds `PlayerEngine::StartPlaybackWithPriming`: ensure the output is
initialized, set decode mode Running, then prime and start. -/
def startPlaybackWithPriming (env : EngineEnv) (thresholdFrames : Nat)
    (allowEmpty : Bool) (s : EngineState) : Bool × EngineState :=
  match ensureOutputInitialized env s with
  | (false, s₁) => (false, s₁)
  | (true, s₁) =>
      primeAndStart env thresholdFrames allowEmpty
        (setDecodeMode DecodeMode.running s₁)

/-- Embeds `PlayerEngine::HandleCommand` (src/engine/player_engine.cpp, lines
167-253).  `Quit` never reaches `HandleCommand`: the engine loop intercepts
it (see `processCommands`). -/
def handleCommand (env : EngineEnv) (s : EngineState) :
    EngCommand → EngineState
  | .play =>
      match startPlaybackWithPriming env (s.sampleRate / 5) false
          { s with state := PlayerState.starting } with
      | (true, s₁) => { s₁ with state := PlayerState.playing }
      | (false, s₁) => { s₁ with state := PlayerState.error }
  | .pause => commitPaused s
  | .resume =>
      match startPlaybackWithPriming env (s.sampleRate / 20) true
          { s with state := PlayerState.starting } with
      | (true, s₁) => { s₁ with state := PlayerState.playing }
      | (false, s₁) => { s₁ with state := PlayerState.error }
  | .stop =>
      beginNewDecodeEpochAndSetTarget none
        (resetBufferingState
          (stopDecodeAndWaitIdle
            ({ stopOutputAndResetRenderedFrames s with
                 state := PlayerState.stopped
                 renderFrameOffset := 0 })))
  | .seek seconds =>
      let prior := s.state
      let frames : ℤ := round (max 0 seconds * (s.sampleRate : ℚ))
      let desiredMode := if prior = PlayerState.paused then DecodeMode.paused
        else DecodeMode.running
      let s₁ :=
        beginNewDecodeEpochAndSetTarget (some frames)
          (resetBufferingState
            (pauseDecodeAndWaitIdle
              ({ stopOutputAndResetRenderedFrames
                   { s with state := PlayerState.seeking } with
                  renderFrameOffset := frames })))
      if desiredMode = DecodeMode.paused then commitPaused s₁
      else
        match startPlaybackWithPriming env (s₁.sampleRate / 5) false
            { s₁ with state := PlayerState.starting } with
        | (true, s₂) => { s₂ with state := PlayerState.playing }
        | (false, s₂) => { s₂ with state := PlayerState.error }
  | .replay =>
      match startPlaybackWithPriming env (s.sampleRate / 5) false
          { beginNewDecodeEpochAndSetTarget (some 0)
              (resetBufferingState
                ({ stopOutputAndResetRenderedFrames s with
                     state := PlayerState.starting
                     renderFrameOffset := 0 })) with
            state := PlayerState.starting } with
      | (true, s₁) => { s₁ with state := PlayerState.playing }
      | (false, s₁) => { s₁ with state := PlayerState.error }
  | .quit => s

/-- The `QuitCommand` branch of `PlayerEngine::EngineLoop` (lines 139-149):
set decode mode Quit, bump the epoch, stop and shut down the output, and
break out of the loop. -/
def applyQuit (s : EngineState) : EngineState :=
  { bumpEpoch (setDecodeMode DecodeMode.quit s) with
      outputStarted := false
      outputInitialized := false }

/-- Embeds `PlayerEngine::EngineLoop` over a FIFO command queue: commands are
dispatched in order through `HandleCommand`; the first `Quit` runs the quit
branch and breaks, so anything behind it is never dequeued. -/
def processCommands (env : EngineEnv) (s : EngineState) :
    List EngCommand → EngineState
  | [] => s
  | c :: rest =>
      match c with
      | .quit => applyQuit s
      | .play => processCommands env (handleCommand env s .play) rest
      | .pause => processCommands env (handleCommand env s .pause) rest
      | .resume => processCommands env (handleCommand env s .resume) rest
      | .stop => processCommands env (handleCommand env s .stop) rest
      | .seek x => processCommands env (handleCommand env s (.seek x)) rest
      | .replay => processCommands env (handleCommand env s .replay) rest

/-- Caller-side queueing state: the `running_` atomic and the FIFO command
queue. -/
structure ApiState where
  running : Bool
  queue : List EngCommand

/-- Embeds `PlayerEngine::quit` (lines 55-61): `running_.exchange(false)`; a caller
that observes it already false returns without enqueueing; otherwise a
`QuitCommand` is enqueued. -/
def apiQuit (a : ApiState) : ApiState :=
  if a.running then { running := false, queue := a.queue ++ [EngCommand.quit] }
  else a

/-- Epoch adoption at the top of a `PlayerEngine::DecodeLoop` iteration
(lines 331-339): when the observed epoch differs from the cached one, adopt
it and set the local cursor to `target_frame` when nonnegative and to 0
otherwise; an unchanged epoch leaves both untouched. -/
def decodeAdoptEpoch (localEpoch : Nat) (localCursorFrame : ℤ)
    (currentEpoch : Nat) (targetFrame : ℤ) : Nat × ℤ :=
  if currentEpoch ≠ localEpoch then
    (currentEpoch, if 0 ≤ targetFrame then targetFrame else 0)
  else
    (localEpoch, localCursorFrame)

/-- Exit condition of the `PrimeAndStart` wait loop (lines 480-485): the
loop continues while `available < target`, except that with `allow_empty`
an empty ring breaks out immediately. -/
def primeWaitDone (availableFrames thresholdFrames : Nat)
    (allowEmpty : Bool) : Bool :=
  decide (thresholdFrames ≤ availableFrames) ||
    (allowEmpty && decide (availableFrames = 0))

/-- Index of the first observation at which the `PrimeAndStart` wait loop
exits, over a schedule of successive `available_to_read_frames()`
observations (`none` when the loop is still waiting after all of them). -/
def primeWaitExitIndex (thresholdFrames : Nat) (allowEmpty : Bool) :
    List Nat → Option Nat
  | [] => none
  | a :: rest =>
      if primeWaitDone a thresholdFrames allowEmpty then some 0
      else (primeWaitExitIndex thresholdFrames allowEmpty rest).map (· + 1)

/-- Interleaved stereo test frames: frame `lo + i` is the sample pair
`(lo + i, 1000 + lo + i)`, as in the repository's ring buffer tests. -/
def frameList (lo hi : Nat) : List ℚ :=
  (List.range (hi - lo)).flatMap (fun i => [(lo + i : ℚ), (1000 + lo + i : ℚ)])

/-- The spec's wrap-around scenario on a capacity-8, 2-channel ring:
write frames 0..5, read 4, write frames 6..11, read 8. -/
def wrapOps : List RingOp :=
  [RingOp.write (frameList 0 6) 6, RingOp.read 4,
   RingOp.write (frameList 6 12) 6, RingOp.read 8]

/-- A stopped engine on a 48 kHz stereo device whose output has never been
initialized. -/
def uninitEngine : EngineState :=
  { state := PlayerState.stopped
    epoch := 0
    decodeMode := DecodeMode.stopped
    targetFrame := -1
    renderFrameOffset := 0
    renderedFrames := 0
    sampleRate := 48000
    channels := 2
    outputInitialized := false
    outputStarted := false
    ring := initRing 4 2 }

/-- An environment in which device initialization and start both succeed at
48 kHz stereo. -/
def okEnv : EngineEnv :=
  { initOk := true, deviceRate := 48000, deviceChannels := 2, startOk := true }

/-- A playing engine whose output endpoint is initialized. -/
def playingEngine : EngineState :=
  { uninitEngine with state := PlayerState.playing, outputInitialized := true }

theorem ringStep_capacity (s : RingState) (op : RingOp) :
    (ringStep s op).capacity = s.capacity := by
  cases op with
  | write src n =>
      simp only [ringStep, writeFrames]
      split
      · rfl
      · split
        · split <;> rfl
        · rfl
  | read n =>
      simp only [ringStep, readFrames]
      split
      · rfl
      · split
        · split <;> rfl
        · rfl

theorem ringStep_channels (s : RingState) (op : RingOp) :
    (ringStep s op).channels = s.channels := by
  cases op with
  | write src n =>
      simp only [ringStep, writeFrames]
      split
      · rfl
      · split
        · split <;> rfl
        · rfl
  | read n =>
      simp only [ringStep, readFrames]
      split
      · rfl
      · split
        · split <;> rfl
        · rfl

theorem availImpl_of_ok (s : RingState) (h : cursorsOk s) :
    availableToReadFramesImpl s.capacity s.writePos s.readPos =
      (s.writePos - s.readPos, 0) := by
  obtain ⟨h1, h2⟩ := h
  unfold availableToReadFramesImpl
  rw [if_neg (by omega), if_neg (by omega)]

theorem ringStep_invariant (s : RingState) (op : RingOp)
    (h : cursorsOk s) (hb : s.writePos + writeRequest op < U64) :
    cursorsOk (ringStep s op) ∧
      (ringStep s op).writePos ≤ s.writePos + writeRequest op := by
  obtain ⟨h1, h2⟩ := h
  cases op with
  | write src n =>
      simp only [ringStep, writeFrames, availImpl_of_ok s ⟨h1, h2⟩]
      split
      · exact ⟨⟨h1, h2⟩, by simp [writeRequest]⟩
      · split
        · split
          · exact ⟨⟨h1, h2⟩, by simp [writeRequest]⟩
          · exact ⟨⟨h1, h2⟩, by simp [writeRequest]⟩
        · rename_i hz
          simp only [writeRequest] at hb ⊢
          have hle : min n (s.capacity - (s.writePos - s.readPos)) ≤ n :=
            Nat.min_le_left _ _
          have hmod : (s.writePos + min n (s.capacity - (s.writePos - s.readPos)))
              % U64 = s.writePos + min n (s.capacity - (s.writePos - s.readPos)) :=
            Nat.mod_eq_of_lt (by omega)
          constructor
          · constructor
            · simp only [hmod]; omega
            · simp only [hmod]
              have := Nat.min_le_right n (s.capacity - (s.writePos - s.readPos))
              omega
          · simp only [hmod]; omega
  | read n =>
      simp only [ringStep, readFrames, availImpl_of_ok s ⟨h1, h2⟩]
      split
      · exact ⟨⟨h1, h2⟩, by simp [writeRequest]⟩
      · split
        · split
          · exact ⟨⟨h1, h2⟩, by simp [writeRequest]⟩
          · exact ⟨⟨h1, h2⟩, by simp [writeRequest]⟩
        · rename_i hz
          simp only [writeRequest] at hb ⊢
          have hle : min n (s.writePos - s.readPos) ≤ s.writePos - s.readPos :=
            Nat.min_le_right _ _
          have hmod : (s.readPos + min n (s.writePos - s.readPos)) % U64 =
              s.readPos + min n (s.writePos - s.readPos) :=
            Nat.mod_eq_of_lt (by omega)
          constructor
          · constructor
            · simp only [hmod]; omega
            · simp only [hmod]; omega
          · omega

theorem runOps_invariant (ops : List RingOp) (s : RingState)
    (h : cursorsOk s) (hb : s.writePos + totalWriteRequest ops < U64) :
    cursorsOk (runOps s ops) := by
  induction ops generalizing s with
  | nil => exact h
  | cons op rest ih =>
      have hreq : s.writePos + writeRequest op < U64 := by
        cases op <;> simp only [totalWriteRequest, writeRequest] at hb ⊢ <;> omega
      obtain ⟨hok, hle⟩ := ringStep_invariant s op h hreq
      refine ih (ringStep s op) hok ?_
      cases op <;> simp only [totalWriteRequest, writeRequest] at hb hle ⊢ <;> omega

theorem slot_reduce (cap ch x j : Nat) :
    ((x % cap) * ch + j) % (cap * ch) = (x * ch + j) % (cap * ch) := by
  conv_rhs => rw [show x = cap * (x / cap) + x % cap from (Nat.div_add_mod x cap).symm]
  rw [show (cap * (x / cap) + x % cap) * ch + j =
        ((x % cap) * ch + j) + (x / cap) * (cap * ch) by ring]
  rw [Nat.add_mul_mod_self_right]

theorem memcpy2_region (storage srcF : Nat → ℚ) (A F S M N : Nat)
    (hFS : F + S = N) (hAF : A + F ≤ M) (hS : 0 < S → A + F = M) (hNM : N ≤ M)
    (j : Nat) (hj : j < N) :
    memcpyAt (memcpyAt storage A srcF 0 F) 0 srcF F S ((A + j) % M) = srcF j := by
  rcases Nat.lt_or_ge j F with hcase | hcase
  · have hmod : (A + j) % M = A + j := Nat.mod_eq_of_lt (by omega)
    have hSA : S ≤ A + j := by
      rcases Nat.eq_zero_or_pos S with h0 | hpos
      · omega
      · have := hS hpos; omega
    rw [hmod]
    unfold memcpyAt
    rw [if_neg (by omega), if_pos (by omega)]
    congr 1
    omega
  · have hpos : 0 < S := by omega
    have hM := hS hpos
    have hmod : (A + j) % M = j - F := by
      rw [Nat.mod_eq_sub_mod (by omega), Nat.mod_eq_of_lt (by omega)]
      omega
    rw [hmod]
    unfold memcpyAt
    rw [if_pos (by omega)]
    congr 1
    omega

theorem memcpy2_offregion (storage srcF : Nat → ℚ) (A F S M N : Nat)
    (hFS : F + S = N) (hS : 0 < S → A + F = M)
    (k : Nat) (hk : k < M)
    (hout : ∀ j, j < N → k ≠ (A + j) % M) :
    memcpyAt (memcpyAt storage A srcF 0 F) 0 srcF F S k = storage k := by
  have h2 : ¬ k < S := by
    intro hkS
    have hpos : 0 < S := by omega
    have hM := hS hpos
    refine hout (F + k) (by omega) ?_
    rw [show A + (F + k) = M + k by omega, Nat.add_mod_left, Nat.mod_eq_of_lt hk]
  have h1 : ¬ (A ≤ k ∧ k < A + F) := by
    rintro ⟨ha, hb⟩
    refine hout (k - A) (by omega) ?_
    rw [show A + (k - A) = k by omega, Nat.mod_eq_of_lt hk]
  unfold memcpyAt
  rw [if_neg (by omega), if_neg h1]

theorem lt_mod_lt (a M : Nat) (hM : 0 < M) : a % M < M := Nat.mod_lt _ hM

theorem list_eq_of_getD (l₁ l₂ : List ℚ) (hlen : l₁.length = l₂.length)
    (h : ∀ j, j < l₁.length → l₁.getD j 0 = l₂.getD j 0) : l₁ = l₂ := by
  apply List.ext_getElem hlen
  intro i h1 h2
  have := h i h1
  rwa [List.getD_eq_getElem _ _ h1, List.getD_eq_getElem _ _ h2] at this

theorem writeFrames_pos_eq (s : RingState) (src : List ℚ) (n : Nat)
    (hcap : 0 < s.capacity) (hch : 0 < s.channels) (hok : cursorsOk s)
    (hn0 : 0 < n) (hn : n ≤ s.capacity - (s.writePos - s.readPos)) :
    writeFrames s src n =
      (n,
       { s with
           storage :=
             memcpyAt
               (memcpyAt s.storage ((s.writePos % s.capacity) * s.channels)
                 (fun i => src.getD i 0) 0
                 (min n (s.capacity - s.writePos % s.capacity) * s.channels))
               0 (fun i => src.getD i 0)
               (min n (s.capacity - s.writePos % s.capacity) * s.channels)
               ((n - min n (s.capacity - s.writePos % s.capacity)) * s.channels)
           writePos := (s.writePos + n) % U64 }) := by
  have hmul : s.capacity * s.channels ≠ 0 := Nat.mul_ne_zero (by omega) (by omega)
  simp only [writeFrames, availImpl_of_ok s hok]
  rw [if_neg (by push_neg; exact ⟨hmul, by omega, by omega⟩)]
  rw [Nat.min_eq_left hn]
  rw [if_neg (by omega)]
  simp only [Nat.lt_irrefl, if_false, Nat.add_zero]

theorem readFrames_pos_eq (s : RingState) (n : Nat)
    (hcap : 0 < s.capacity) (hch : 0 < s.channels) (hok : cursorsOk s)
    (hn0 : 0 < min n (s.writePos - s.readPos)) :
    readFrames s n =
      (min n (s.writePos - s.readPos),
       (List.range (min n (s.writePos - s.readPos) * s.channels)).map (fun j =>
         if j < min (min n (s.writePos - s.readPos))
                  (s.capacity - s.readPos % s.capacity) * s.channels then
           s.storage ((s.readPos % s.capacity) * s.channels + j)
         else
           s.storage (j - min (min n (s.writePos - s.readPos))
                            (s.capacity - s.readPos % s.capacity) * s.channels)),
       { s with
           readPos := (s.readPos + min n (s.writePos - s.readPos)) % U64
           underrunCount := if min n (s.writePos - s.readPos) < n then
                              s.underrunCount + 1 else s.underrunCount }) := by
  have hmul : s.capacity * s.channels ≠ 0 := Nat.mul_ne_zero (by omega) (by omega)
  simp only [readFrames, availImpl_of_ok s hok]
  rw [if_neg (by push_neg; exact ⟨hmul, by omega, by omega⟩)]
  rw [if_neg (by omega)]
  simp only [Nat.add_zero]

theorem writeFrames_zero_eq (s : RingState) (src : List ℚ)
    (hcap : 0 < s.capacity) (hch : 0 < s.channels) (hok : cursorsOk s) :
    writeFrames s src 0 = (0, s) := by
  have hmul : s.capacity * s.channels ≠ 0 := Nat.mul_ne_zero (by omega) (by omega)
  simp only [writeFrames, availImpl_of_ok s hok]
  rw [if_neg (by push_neg; exact ⟨hmul, by omega, by omega⟩)]
  simp

theorem writeFrames_matches (s : RingState) (pending src : List ℚ) (n : Nat)
    (hcap : 0 < s.capacity) (hch : 0 < s.channels)
    (hm : ringMatches s pending)
    (hn : n ≤ availableToWriteFrames s)
    (hlen : src.length = n * s.channels)
    (hw : s.writePos + n < U64) :
    (writeFrames s src n).1 = n ∧
    ringMatches (writeFrames s src n).2 (pending ++ src) := by
  obtain ⟨hrw, hwc, hplen, hpsamp⟩ := hm
  have hok : cursorsOk s := ⟨hrw, hwc⟩
  have hAW : availableToWriteFrames s = s.capacity - (s.writePos - s.readPos) := by
    unfold availableToWriteFrames
    rw [availImpl_of_ok s hok]
  rw [hAW] at hn
  rcases Nat.eq_zero_or_pos n with hn0 | hn0
  · subst hn0
    have hsrc : src = [] := List.eq_nil_of_length_eq_zero (by omega)
    subst hsrc
    rw [writeFrames_zero_eq s [] hcap hch hok]
    exact ⟨rfl, by simpa using ⟨hrw, hwc, hplen, hpsamp⟩⟩
  · rw [writeFrames_pos_eq s src n hcap hch hok hn0 hn]
    have hwi : s.writePos % s.capacity < s.capacity := Nat.mod_lt _ hcap
    have hM : 0 < s.capacity * s.channels := Nat.mul_pos hcap hch
    have hmodW : (s.writePos + n) % U64 = s.writePos + n := Nat.mod_eq_of_lt hw
    have hFS : min n (s.capacity - s.writePos % s.capacity) * s.channels +
        (n - min n (s.capacity - s.writePos % s.capacity)) * s.channels =
          n * s.channels := by
      rw [← Nat.add_mul]
      congr 1
      omega
    have hAF : (s.writePos % s.capacity) * s.channels +
        min n (s.capacity - s.writePos % s.capacity) * s.channels ≤
          s.capacity * s.channels := by
      rw [← Nat.add_mul]
      exact Nat.mul_le_mul_right _ (by omega)
    have hSS : 0 < (n - min n (s.capacity - s.writePos % s.capacity)) * s.channels →
        (s.writePos % s.capacity) * s.channels +
          min n (s.capacity - s.writePos % s.capacity) * s.channels =
            s.capacity * s.channels := by
      intro hSpos
      have hx : 0 < n - min n (s.capacity - s.writePos % s.capacity) := by
        rcases Nat.eq_zero_or_pos (n - min n (s.capacity - s.writePos % s.capacity))
          with h0 | hx
        · rw [h0] at hSpos; simp at hSpos
        · exact hx
      rw [← Nat.add_mul]
      congr 1
      omega
    have hNM : n * s.channels ≤ s.capacity * s.channels :=
      Nat.mul_le_mul_right _ (by omega)
    have hwmul : s.writePos * s.channels =
        s.readPos * s.channels + (s.writePos - s.readPos) * s.channels := by
      rw [← Nat.add_mul]
      congr 1
      omega
    refine ⟨rfl, ?_, ?_, ?_, ?_⟩
    · simpa using hrw.trans (Nat.le_add_right _ _) |>.trans (le_of_eq hmodW.symm)
    · simp only [hmodW]
      omega
    · simp only [hmodW, List.length_append, hplen, hlen]
      rw [show s.writePos + n - s.readPos = (s.writePos - s.readPos) + n by omega,
        Nat.add_mul]
    · intro i hi
      simp only [hmodW, List.length_append, hplen, hlen] at hi
      simp only [sampleSlot]
      rcases Nat.lt_or_ge i pending.length with hcase | hcase
      · rw [List.getD_append _ _ _ _ hcase, hpsamp i hcase]
        have hslot : ((s.readPos % s.capacity) * s.channels + i) %
            (s.capacity * s.channels) < s.capacity * s.channels :=
          Nat.mod_lt _ hM
        rw [sampleSlot] at *
        refine (memcpy2_offregion s.storage _ _ _ _ _ _ hFS hSS _ hslot ?_).symm
        intro j hj heq
        rw [slot_reduce, slot_reduce] at heq
        rw [hwmul] at heq
        rw [show s.readPos * s.channels + (s.writePos - s.readPos) * s.channels + j =
              s.readPos * s.channels + ((s.writePos - s.readPos) * s.channels + j)
            from by omega] at heq
        have hcongr : i ≡ (s.writePos - s.readPos) * s.channels + j
            [MOD s.capacity * s.channels] :=
          Nat.ModEq.add_left_cancel' (s.readPos * s.channels) heq
        have hiM : i < s.capacity * s.channels := by
          have : (s.writePos - s.readPos) * s.channels ≤ s.capacity * s.channels :=
            Nat.mul_le_mul_right _ (by omega)
          omega
        have hjM : (s.writePos - s.readPos) * s.channels + j <
            s.capacity * s.channels := by
          have : (s.writePos - s.readPos) * s.channels + n * s.channels ≤
              s.capacity * s.channels := by
            rw [← Nat.add_mul]
            exact Nat.mul_le_mul_right _ (by omega)
          omega
        have := hcongr
        rw [Nat.ModEq, Nat.mod_eq_of_lt hiM, Nat.mod_eq_of_lt hjM] at this
        rw [hplen] at hcase
        omega
      · rw [List.getD_append_right _ _ _ _ hcase, hplen] at *
        have hj : i - (s.writePos - s.readPos) * s.channels < n * s.channels := by
          have hexp : (s.writePos - s.readPos + n) * s.channels =
              (s.writePos - s.readPos) * s.channels + n * s.channels :=
            Nat.add_mul _ _ _
          omega
        have hslot : ((s.readPos % s.capacity) * s.channels + i) %
              (s.capacity * s.channels) =
            ((s.writePos % s.capacity) * s.channels +
              (i - (s.writePos - s.readPos) * s.channels)) %
              (s.capacity * s.channels) := by
          rw [slot_reduce, slot_reduce, hwmul]
          congr 1
          omega
        rw [hslot]
        exact (memcpy2_region s.storage (fun i => src.getD i 0) _ _ _ _ _
          hFS hAF hSS hNM _ hj).symm

theorem getD_range_map (f : Nat → ℚ) (m j : Nat) (hj : j < m) :
    ((List.range m).map f).getD j 0 = f j := by
  rw [List.getD_eq_getElem _ _ (by simpa using hj)]
  simp

theorem getD_take (l : List ℚ) (m j : Nat) (hj : j < m) (hl : j < l.length) :
    (l.take m).getD j 0 = l.getD j 0 := by
  rw [List.getD_eq_getElem _ _ (by simp; omega), List.getD_eq_getElem _ _ hl]
  simp

theorem getD_drop (l : List ℚ) (m j : Nat) (hl : m + j < l.length) :
    (l.drop m).getD j 0 = l.getD (m + j) 0 := by
  rw [List.getD_eq_getElem _ _ (by simp; omega), List.getD_eq_getElem _ _ hl]
  simp

theorem readFrames_zero_parts (s : RingState) (n : Nat)
    (hcap : 0 < s.capacity) (hch : 0 < s.channels) (hok : cursorsOk s)
    (h0 : min n (s.writePos - s.readPos) = 0) :
    (readFrames s n).1 = 0 ∧ (readFrames s n).2.1 = [] ∧
    (readFrames s n).2.2.readPos = s.readPos ∧
    (readFrames s n).2.2.writePos = s.writePos ∧
    (readFrames s n).2.2.capacity = s.capacity ∧
    (readFrames s n).2.2.channels = s.channels ∧
    (readFrames s n).2.2.storage = s.storage := by
  have hmul : s.capacity * s.channels ≠ 0 := Nat.mul_ne_zero (by omega) (by omega)
  simp only [readFrames, availImpl_of_ok s hok]
  rw [if_neg (by push_neg; exact ⟨hmul, by omega, by omega⟩)]
  rw [if_pos h0]
  split <;> simp

theorem readFrames_matches (s : RingState) (pending : List ℚ) (n : Nat)
    (hcap : 0 < s.capacity) (hch : 0 < s.channels)
    (hm : ringMatches s pending)
    (hw : s.writePos < U64) :
    (readFrames s n).1 = min n (s.writePos - s.readPos) ∧
    (readFrames s n).2.1 =
      pending.take (min n (s.writePos - s.readPos) * s.channels) ∧
    ringMatches (readFrames s n).2.2
      (pending.drop (min n (s.writePos - s.readPos) * s.channels)) := by
  obtain ⟨hrw, hwc, hplen, hpsamp⟩ := hm
  have hok : cursorsOk s := ⟨hrw, hwc⟩
  have hM : 0 < s.capacity * s.channels := Nat.mul_pos hcap hch
  have hri : s.readPos % s.capacity < s.capacity := Nat.mod_lt _ hcap
  rcases Nat.eq_zero_or_pos (min n (s.writePos - s.readPos)) with h0 | hpos
  · obtain ⟨e1, e2, e3, e4, e5, e6, e7⟩ := readFrames_zero_parts s n hcap hch hok h0
    rw [h0]
    refine ⟨e1, by simpa using e2, ?_⟩
    simp only [Nat.zero_mul, List.drop_zero]
    refine ⟨?_, ?_, ?_, ?_⟩
    · rw [e3, e4]; exact hrw
    · rw [e3, e4, e5]; exact hwc
    · rw [e3, e4, e6]; exact hplen
    · intro i hi
      rw [e7]
      have := hpsamp i hi
      rw [this]
      congr 1
      simp only [sampleSlot, e3, e5, e6]
  · rw [readFrames_pos_eq s n hcap hch hok hpos]
    have hle : min n (s.writePos - s.readPos) ≤ s.writePos - s.readPos :=
      Nat.min_le_right _ _
    have hmulle : min n (s.writePos - s.readPos) * s.channels ≤
        (s.writePos - s.readPos) * s.channels :=
      Nat.mul_le_mul_right _ hle
    have hpendM : (s.writePos - s.readPos) * s.channels ≤
        s.capacity * s.channels :=
      Nat.mul_le_mul_right _ hwc
    have hriM : (s.readPos % s.capacity) * s.channels +
        (s.capacity - s.readPos % s.capacity) * s.channels =
          s.capacity * s.channels := by
      rw [← Nat.add_mul]
      congr 1
      omega
    have hmodR : (s.readPos + min n (s.writePos - s.readPos)) % U64 =
        s.readPos + min n (s.writePos - s.readPos) :=
      Nat.mod_eq_of_lt (by omega)
    have hfval : ∀ j, j < min n (s.writePos - s.readPos) * s.channels →
        (if j < min (min n (s.writePos - s.readPos))
              (s.capacity - s.readPos % s.capacity) * s.channels then
           s.storage ((s.readPos % s.capacity) * s.channels + j)
         else
           s.storage (j - min (min n (s.writePos - s.readPos))
                (s.capacity - s.readPos % s.capacity) * s.channels)) =
          s.storage (sampleSlot s j) := by
      intro j hj
      rcases Nat.lt_or_ge j (min (min n (s.writePos - s.readPos))
          (s.capacity - s.readPos % s.capacity) * s.channels) with hc | hc
      · rw [if_pos hc]
        have hbound : (s.readPos % s.capacity) * s.channels + j <
            s.capacity * s.channels := by
          have : min (min n (s.writePos - s.readPos))
              (s.capacity - s.readPos % s.capacity) * s.channels ≤
                (s.capacity - s.readPos % s.capacity) * s.channels :=
            Nat.mul_le_mul_right _ (Nat.min_le_right _ _)
          omega
        rw [sampleSlot, Nat.mod_eq_of_lt hbound]
      · rw [if_neg (by omega)]
        have hmin : min (min n (s.writePos - s.readPos))
            (s.capacity - s.readPos % s.capacity) =
              s.capacity - s.readPos % s.capacity := by
          rcases Nat.le_total (min n (s.writePos - s.readPos))
            (s.capacity - s.readPos % s.capacity) with hle2 | hle2
          · exfalso
            have : min n (s.writePos - s.readPos) * s.channels ≤
                (s.capacity - s.readPos % s.capacity) * s.channels :=
              Nat.mul_le_mul_right _ hle2
            rw [Nat.min_eq_left hle2] at hc
            omega
          · exact Nat.min_eq_right hle2
        rw [hmin] at hc ⊢
        have hup : (s.readPos % s.capacity) * s.channels + j <
            2 * (s.capacity * s.channels) := by
          have hjM : j < s.capacity * s.channels := by omega
          have : (s.readPos % s.capacity) * s.channels < s.capacity * s.channels :=
            Nat.mul_lt_mul_of_lt_of_le hri (le_refl _) hch
          omega
        have hsub : s.capacity * s.channels ≤
            (s.readPos % s.capacity) * s.channels + j := by omega
        have hlt2 : (s.readPos % s.capacity) * s.channels + j -
            s.capacity * s.channels < s.capacity * s.channels := by omega
        rw [sampleSlot, Nat.mod_eq_sub_mod hsub, Nat.mod_eq_of_lt hlt2]
        congr 1
        omega
    refine ⟨rfl, ?_, ?_⟩
    · apply list_eq_of_getD
      · simp only [List.length_map, List.length_range, List.length_take, hplen]
        omega
      · intro j hj
        simp only [List.length_map, List.length_range] at hj
        rw [getD_range_map _ _ _ hj, getD_take _ _ _ hj (by omega)]
        rw [hpsamp j (by omega)]
        exact hfval j hj
    · refine ⟨?_, ?_, ?_, ?_⟩
      · simp only [hmodR]; omega
      · simp only [hmodR]; omega
      · simp only [hmodR, List.length_drop, hplen]
        rw [show s.writePos - (s.readPos + min n (s.writePos - s.readPos)) =
              (s.writePos - s.readPos) - min n (s.writePos - s.readPos) by omega,
          Nat.sub_mul (s.writePos - s.readPos) (min n (s.writePos - s.readPos))
            s.channels]
      · intro i hi
        simp only [List.length_drop, hplen] at hi
        rw [getD_drop _ _ _ (by omega), hpsamp _ (by omega)]
        simp only [sampleSlot, hmodR]
        congr 1
        rw [slot_reduce, slot_reduce,
          Nat.add_mul s.readPos (min n (s.writePos - s.readPos)) s.channels]
        congr 1
        omega

theorem run_sim (ops : List RingOp) (s : RingState) (pending : List ℚ)
    (hcap : 0 < s.capacity) (hch : 0 < s.channels)
    (hm : ringMatches s pending)
    (hfit : writesFit s ops = true)
    (hb : s.writePos + totalWriteRequest ops < U64) :
    runReads s ops = (absRun s.channels pending ops).2 ∧
    ringMatches (runOps s ops) (absRun s.channels pending ops).1 := by
  induction ops generalizing s pending with
  | nil => exact ⟨rfl, hm⟩
  | cons op rest ih =>
      cases op with
      | write src n =>
          simp only [writesFit, Bool.and_eq_true, decide_eq_true_eq] at hfit
          obtain ⟨⟨hn, hlen⟩, hfit2⟩ := hfit
          have hw : s.writePos + n < U64 := by
            simp only [totalWriteRequest] at hb; omega
          obtain ⟨hret, hm2⟩ :=
            writeFrames_matches s pending src n hcap hch hm hn hlen hw
          have hcap2 : 0 < (ringStep s (.write src n)).capacity := by
            rw [ringStep_capacity]; exact hcap
          have hch2 : 0 < (ringStep s (.write src n)).channels := by
            rw [ringStep_channels]; exact hch
          have hb2 : (ringStep s (.write src n)).writePos +
              totalWriteRequest rest < U64 := by
            have := (ringStep_invariant s (.write src n) ⟨hm.1, hm.2.1⟩
              (by simpa [writeRequest] using hw)).2
            simp only [writeRequest] at this
            simp only [totalWriteRequest] at hb
            omega
          obtain ⟨ihreads, ihmatch⟩ :=
            ih (ringStep s (.write src n)) (pending ++ src) hcap2 hch2 hm2 hfit2 hb2
          rw [ringStep_channels] at ihreads ihmatch
          exact ⟨ihreads, ihmatch⟩
      | read n =>
          simp only [writesFit] at hfit
          have hwU : s.writePos < U64 := by
            simp only [totalWriteRequest] at hb; omega
          obtain ⟨hret, houtr, hm2⟩ := readFrames_matches s pending n hcap hch hm hwU
          have hdiv : pending.length / s.channels = s.writePos - s.readPos := by
            rw [hm.2.2.1, Nat.mul_div_cancel _ hch]
          have hcap2 : 0 < (ringStep s (.read n)).capacity := by
            rw [ringStep_capacity]; exact hcap
          have hch2 : 0 < (ringStep s (.read n)).channels := by
            rw [ringStep_channels]; exact hch
          have hb2 : (ringStep s (.read n)).writePos +
              totalWriteRequest rest < U64 := by
            have := (ringStep_invariant s (.read n) ⟨hm.1, hm.2.1⟩
              (by simpa [writeRequest] using hwU)).2
            simp only [writeRequest] at this
            simp only [totalWriteRequest] at hb
            omega
          obtain ⟨ihreads, ihmatch⟩ := ih (ringStep s (.read n))
            (pending.drop (min n (s.writePos - s.readPos) * s.channels))
            hcap2 hch2 hm2 hfit hb2
          rw [ringStep_channels] at ihreads ihmatch
          constructor
          · simp only [runReads, absRun, hdiv]
            rw [houtr, ihreads]
          · simp only [absRun, hdiv]
            exact ihmatch

theorem absRun_append (channels : Nat) (pending : List ℚ) (ops : List RingOp) :
    (absRun channels pending ops).2 ++ (absRun channels pending ops).1 =
      pending ++ writesConcat ops := by
  induction ops generalizing pending with
  | nil => simp [absRun, writesConcat]
  | cons op rest ih =>
      cases op with
      | write src n =>
          simp only [absRun, writesConcat]
          rw [ih]
          simp [List.append_assoc]
      | read n =>
          simp only [absRun, writesConcat]
          rw [List.append_assoc, ih, ← List.append_assoc, List.take_append_drop]

theorem initRing_matches_nil (capacity channels : Nat) :
    ringMatches (initRing capacity channels) [] := by
  refine ⟨le_refl _, by simp [initRing], by simp [initRing], ?_⟩
  intro i hi
  simp at hi

/-- C1: for every SPSC call sequence on a ring of capacity C (cursor stores
modelled with their 64-bit wrap, so the total frames requested by writes is
assumed below 2^64, which the spec's "monotonic 64-bit cursors, never
wrapped" takes for granted), `write_cursor ≥ read_cursor` and
`write_cursor - read_cursor ≤ C` hold at every observation; and in release
builds a violated invariant is clamped (available-to-read reported as 0 when
write < read and as C when the difference exceeds C) with the
invariant-violation counter incremented instead of failing. -/
theorem ring_cursor_invariant_c1 :
    (∀ (capacityFrames channels : Nat) (ops : List RingOp),
        totalWriteRequest ops < U64 →
        cursorsOk (runOps (initRing capacityFrames channels) ops)) ∧
    (∀ capacity writePos readPos : Nat,
        writePos < readPos →
        availableToReadFramesImpl capacity writePos readPos = (0, 1)) ∧
    (∀ capacity writePos readPos : Nat,
        readPos ≤ writePos → capacity < writePos - readPos →
        availableToReadFramesImpl capacity writePos readPos =
          (capacity, 1)) := by
  refine ⟨?_, ?_, ?_⟩
  · intro capacityFrames channels ops hb
    refine runOps_invariant ops (initRing capacityFrames channels)
      ⟨le_refl _, by simp [initRing]⟩ ?_
    simpa [initRing] using hb
  · intro capacity writePos readPos h
    unfold availableToReadFramesImpl
    rw [if_pos h]
  · intro capacity writePos readPos h1 h2
    unfold availableToReadFramesImpl
    rw [if_neg (by omega), if_pos h2]

theorem ring_cursor_invariant_c1_witness :
    cursorsOk (runOps (initRing 4 2)
      [RingOp.write (frameList 0 3) 3, RingOp.read 2,
       RingOp.write (frameList 3 6) 3]) ∧
    availableToReadFramesImpl 4 1 2 = (0, 1) ∧
    availableToReadFramesImpl 4 9 2 = (4, 1) :=
  ⟨ring_cursor_invariant_c1.1 4 2 _ (by decide),
   ring_cursor_invariant_c1.2.1 4 1 2 (by decide),
   ring_cursor_invariant_c1.2.2 4 9 2 (by decide) (by decide)⟩

/-- C2 counterexample: on a ring constructed with zero channels,
`write_frames(1)` returns 0 (strictly less than the request) yet the overrun
counter is not incremented: the unallocated-storage early return bypasses
the counters, contradicting the claim's "whenever the returned count is
strictly less than n the counter is incremented by exactly 1". -/
theorem write_degenerate_c2_counterexample :
    (writeFrames (initRing 2 0) [0, 0] 1).1 < 1 ∧
    (writeFrames (initRing 2 0) [0, 0] 1).2.overrunCount = 0 := by
  decide

/-- C2 (amended): for an allocated ring (capacity and channels nonzero),
`write_frames` returns `min(n, available_to_write)` and `read_frames`
returns `min(n, available_to_read)`, and the corresponding counter is
incremented by exactly 1 whenever the returned count is strictly below the
request, regardless of the shortfall; when storage is unallocated or
channels = 0 the call returns 0 and leaves the whole state (counters
included) untouched. -/
theorem write_read_min_counter_c2 (s : RingState) (src : List ℚ) (n : Nat) :
    (s.capacity ≠ 0 → s.channels ≠ 0 →
      (writeFrames s src n).1 = min n (availableToWriteFrames s) ∧
      (writeFrames s src n).2.overrunCount =
        s.overrunCount + (if (writeFrames s src n).1 < n then 1 else 0) ∧
      (readFrames s n).1 = min n (availableToReadFrames s) ∧
      (readFrames s n).2.2.underrunCount =
        s.underrunCount + (if (readFrames s n).1 < n then 1 else 0)) ∧
    (s.capacity = 0 ∨ s.channels = 0 →
      writeFrames s src n = (0, s) ∧ readFrames s n = (0, [], s)) := by
  constructor
  · intro hcap hch
    have hmul : ¬ (s.capacity * s.channels = 0 ∨ s.capacity = 0 ∨
        s.channels = 0) := by
      push_neg
      exact ⟨Nat.mul_ne_zero hcap hch, hcap, hch⟩
    have hAW : availableToWriteFrames s =
        s.capacity - (availableToReadFramesImpl s.capacity s.writePos
          s.readPos).1 := rfl
    have hAR : availableToReadFrames s =
        (availableToReadFramesImpl s.capacity s.writePos s.readPos).1 := rfl
    refine ⟨?_, ?_, ?_, ?_⟩
    · simp only [writeFrames, if_neg hmul]
      split
      · rename_i h0
        rw [hAW]
        split <;> omega
      · rw [hAW]
    · simp only [writeFrames, if_neg hmul]
      split
      · rename_i h0
        split
        · rename_i hne
          have hpos : 0 < n := Nat.pos_of_ne_zero hne
          simp [hpos]
        · rename_i hne
          simp only [not_not] at hne
          subst hne
          simp
      · rename_i h0
        split
        · simp
        · simp
    · simp only [readFrames, if_neg hmul]
      split
      · rename_i h0
        rw [hAR]
        split <;> omega
      · rw [hAR]
    · simp only [readFrames, if_neg hmul]
      split
      · rename_i h0
        split
        · rename_i hne
          have hpos : 0 < n := Nat.pos_of_ne_zero hne
          simp [hpos]
        · rename_i hne
          simp only [not_not] at hne
          subst hne
          simp
      · rename_i h0
        split
        · simp
        · simp
  · intro hdeg
    have hmul : s.capacity * s.channels = 0 ∨ s.capacity = 0 ∨
        s.channels = 0 := by
      rcases hdeg with h | h
      · exact Or.inr (Or.inl h)
      · exact Or.inr (Or.inr h)
    constructor
    · simp only [writeFrames, if_pos hmul]
    · simp only [readFrames, if_pos hmul]

theorem write_read_min_counter_c2_witness :
    (writeFrames (initRing 4 2) (frameList 0 5) 5).1 =
      min 5 (availableToWriteFrames (initRing 4 2)) ∧
    (writeFrames (initRing 4 2) (frameList 0 5) 5).2.overrunCount =
      (initRing 4 2).overrunCount +
        (if (writeFrames (initRing 4 2) (frameList 0 5) 5).1 < 5 then 1
         else 0) ∧
    readFrames (initRing 0 2) 1 = (0, [], initRing 0 2) :=
  ⟨((write_read_min_counter_c2 (initRing 4 2) (frameList 0 5) 5).1
      (by decide) (by decide)).1,
   ((write_read_min_counter_c2 (initRing 4 2) (frameList 0 5) 5).1
      (by decide) (by decide)).2.1,
   ((write_read_min_counter_c2 (initRing 0 2) [] 1).2 (by decide)).2⟩

/-- C3: on a ring with positive capacity and channel count, any call
sequence whose writes never exceed the available space (and whose total
write request stays below the 64-bit cursor range) reads back exactly the
samples written, in order, across wrap-around: the concatenated read results
followed by the still-buffered samples equal the concatenated written
samples, so the reads are a prefix of the writes. -/
theorem ring_fifo_round_trip_c3 (capacity channels : Nat) (ops : List RingOp)
    (hcap : 0 < capacity) (hch : 0 < channels)
    (hfit : writesFit (initRing capacity channels) ops = true)
    (hb : totalWriteRequest ops < U64) :
    runReads (initRing capacity channels) ops ++ (absRun channels [] ops).1 =
      writesConcat ops ∧
    runReads (initRing capacity channels) ops =
      (writesConcat ops).take
        (runReads (initRing capacity channels) ops).length := by
  obtain ⟨hreads, hmatch⟩ := run_sim ops (initRing capacity channels) []
    (by simpa [initRing] using hcap) (by simpa [initRing] using hch)
    (initRing_matches_nil capacity channels) hfit
    (by simpa [initRing] using hb)
  rw [show (initRing capacity channels).channels = channels from rfl]
    at hreads hmatch
  have hfull : runReads (initRing capacity channels) ops ++
      (absRun channels [] ops).1 = writesConcat ops := by
    rw [hreads]
    simpa using absRun_append channels [] ops
  refine ⟨hfull, ?_⟩
  conv_rhs => rw [← hfull]
  rw [List.take_left]

theorem ring_fifo_round_trip_c3_witness :
    runReads (initRing 8 2) wrapOps ++ (absRun 2 [] wrapOps).1 =
      writesConcat wrapOps :=
  (ring_fifo_round_trip_c3 8 2 wrapOps (by decide) (by decide) (by decide)
    (by decide)).1

/-- C10: when the cursor invariant holds at the call (as it does at every
reachable state, by the C1 invariant), `write_frames` changes only the write
cursor, the overrun counter and the samples of its two destination ranges:
the read cursor, the underrun counter, the invariant-violation counter, the
capacity, the channel count and every sample outside `writeTouched` are
unchanged; symmetrically `read_frames` changes only the read cursor and the
underrun counter and never writes to storage. -/
theorem frame_conditions_c10 (s : RingState) (src : List ℚ) (n : Nat)
    (hok : cursorsOk s) :
    ((writeFrames s src n).2.readPos = s.readPos ∧
     (writeFrames s src n).2.underrunCount = s.underrunCount ∧
     (writeFrames s src n).2.capacity = s.capacity ∧
     (writeFrames s src n).2.channels = s.channels ∧
     (writeFrames s src n).2.invariantViolationCount =
       s.invariantViolationCount ∧
     ∀ k, writeTouched s n k = false →
       (writeFrames s src n).2.storage k = s.storage k) ∧
    ((readFrames s n).2.2.writePos = s.writePos ∧
     (readFrames s n).2.2.overrunCount = s.overrunCount ∧
     (readFrames s n).2.2.capacity = s.capacity ∧
     (readFrames s n).2.2.channels = s.channels ∧
     (readFrames s n).2.2.invariantViolationCount =
       s.invariantViolationCount ∧
     (readFrames s n).2.2.storage = s.storage) := by
  have he := availImpl_of_ok s hok
  constructor
  · by_cases h1 : s.capacity * s.channels = 0 ∨ s.capacity = 0 ∨
        s.channels = 0
    · simp only [writeFrames, writeTouched, if_pos h1]
      simp
    · by_cases h2 : min n (s.capacity - (s.writePos - s.readPos)) = 0
      · simp only [writeFrames, writeTouched, he, if_neg h1, if_pos h2]
        split <;> simp
      · simp only [writeFrames, writeTouched, he, if_neg h1, if_neg h2]
        refine ⟨by simp, by simp, by simp, by simp, by simp, ?_⟩
        intro k hk
        simp only [Bool.or_eq_false_iff, decide_eq_false_iff_not] at hk
        simp only [memcpyAt]
        rw [if_neg (by omega), if_neg (by omega)]
  · by_cases h1 : s.capacity * s.channels = 0 ∨ s.capacity = 0 ∨
        s.channels = 0
    · simp only [readFrames, if_pos h1]
      simp
    · by_cases h2 : min n (s.writePos - s.readPos) = 0
      · simp only [readFrames, he, if_neg h1, if_pos h2]
        split <;> simp
      · simp only [readFrames, he, if_neg h1, if_neg h2]
        simp

theorem frame_conditions_c10_witness :
    (writeFrames (initRing 8 2) (frameList 0 6) 6).2.readPos =
      (initRing 8 2).readPos ∧
    (writeFrames (initRing 8 2) (frameList 0 6) 6).2.storage 13 =
      (initRing 8 2).storage 13 ∧
    (readFrames (initRing 8 2) 3).2.2.storage = (initRing 8 2).storage :=
  ⟨(frame_conditions_c10 (initRing 8 2) (frameList 0 6) 6
      (by decide)).1.1,
   (frame_conditions_c10 (initRing 8 2) (frameList 0 6) 6
      (by decide)).1.2.2.2.2.2 13 (by decide),
   (frame_conditions_c10 (initRing 8 2) (frameList 0 6) 3
      (by decide)).2.2.2.2.2.2⟩

/-- C4: whenever a render cycle reaches `GetBuffer` and it succeeds, exactly
one `ReleaseBuffer` is issued, its frames argument equals the frames passed
to `GetBuffer` (endpoint buffer size minus padding), and the silent flag is
set exactly when zero frames were produced from the frame source (the ring)
in that cycle. -/
theorem render_release_c4 (api : RenderApiEnv) (bufferFrames : Nat)
    (fmt : SampleFormat) (channels : Nat) (ring : Option RingState)
    (padding : Nat)
    (hw : api.wired = true) (hp : api.paddingResult = some padding)
    (hlt : padding < bufferFrames) (hg : api.getBufferOk = true) :
    (renderAudio api bufferFrames fmt channels ring).getBufferCalls =
      [bufferFrames - padding] ∧
    (renderAudio api bufferFrames fmt channels ring).releaseCalls =
      [(bufferFrames - padding,
        (renderAudio api bufferFrames fmt channels ring).framesProduced
          == 0)] := by
  by_cases hfmt : fmt = SampleFormat.float32
  · subst hfmt
    simp [renderAudio, hw, hp, hg, if_neg (by omega : ¬ bufferFrames ≤ padding),
      if_neg (by omega : ¬ bufferFrames - padding = 0)]
  · simp [renderAudio, hw, hp, hg, hfmt,
      if_neg (by omega : ¬ bufferFrames ≤ padding),
      if_neg (by omega : ¬ bufferFrames - padding = 0)]

theorem render_release_c4_witness :
    (renderAudio ⟨true, some 2, true⟩ 8 SampleFormat.float32 2
        (some (initRing 8 2))).getBufferCalls = [6] ∧
    (renderAudio ⟨true, some 2, true⟩ 8 SampleFormat.float32 2
        (some (initRing 8 2))).releaseCalls =
      [(6, (renderAudio ⟨true, some 2, true⟩ 8 SampleFormat.float32 2
        (some (initRing 8 2))).framesProduced == 0)] :=
  render_release_c4 ⟨true, some 2, true⟩ 8 SampleFormat.float32 2
    (some (initRing 8 2)) 2 rfl rfl (by decide) rfl

/-- C5 counterexample: the conversion pinned by the repository's tests maps
0.5 to 16383 (truncation toward zero of 16383.5), whereas the claim's
formula `round(f * 32767)` gives 16384 at f = 0.5 — the very example the
claim itself states. -/
theorem pcm16_c5_counterexample :
    convertFloatToPcm16Sample (1 / 2) = 16383 ∧
    round ((1 / 2 : ℚ) * 32767) = 16384 ∧ (16383 : ℤ) ≠ 16384 := by
  refine ⟨?_, ?_, by decide⟩
  · norm_num [convertFloatToPcm16Sample, ratTruncTowardZero]
  · norm_num [round_eq]

/-- C5 (amended, spec-modelled): with the configured format Pcm16 and the
pre-allocated float scratch buffer present, a successful render cycle first
renders into the scratch buffer and then converts each sample `f` to int16
by clamping to `[-1, 1]`, scaling by 32767 and truncating toward zero:
`f > 1 ↦ 32767`, `f < -1 ↦ -32767`, `f ∈ [-1, 1] ↦ trunc(f · 32767)`
(so input 0.5 yields samples equal to 16383), releasing with flags = 0. -/
theorem pcm16_trunc_c5 :
    (∀ f : ℚ,
        (1 < f → convertFloatToPcm16Sample f = 32767) ∧
        (f < -1 → convertFloatToPcm16Sample f = -32767) ∧
        (-1 ≤ f → f ≤ 1 → convertFloatToPcm16Sample f =
          ratTruncTowardZero (f * 32767))) ∧
    (∀ (api : RenderApiEnv) (src : RenderSource)
        (bufferFrames channels padding : Nat),
        api.paddingResult = some padding → padding < bufferFrames →
        api.getBufferOk = true → src.present = true → src.ok = true →
        (renderAudioCore api src bufferFrames channels SampleFormat.pcm16
            true).floatOut = src.fill (bufferFrames - padding) channels ∧
        (renderAudioCore api src bufferFrames channels SampleFormat.pcm16
            true).pcm16Out =
          convertFloatToPcm16 (src.fill (bufferFrames - padding) channels) ∧
        (renderAudioCore api src bufferFrames channels SampleFormat.pcm16
            true).releaseCalls = [(bufferFrames - padding, false)]) := by
  constructor
  · intro f
    refine ⟨?_, ?_, ?_⟩
    · intro hf
      rw [convertFloatToPcm16Sample, min_eq_left (le_of_lt hf),
        max_eq_right (by norm_num)]
      norm_num [ratTruncTowardZero]
    · intro hf
      rw [convertFloatToPcm16Sample, min_eq_right (by linarith),
        max_eq_left (le_of_lt hf)]
      norm_num [ratTruncTowardZero]
    · intro hf1 hf2
      rw [convertFloatToPcm16Sample, min_eq_right hf2, max_eq_right hf1]
  · intro api src bufferFrames channels padding hp hlt hg hpres hok
    simp [renderAudioCore, hp, hg, hpres, hok,
      if_neg (by omega : ¬ bufferFrames ≤ padding),
      if_neg (by omega : ¬ bufferFrames - padding = 0)]

theorem pcm16_trunc_c5_witness :
    convertFloatToPcm16Sample (1 / 2) =
      ratTruncTowardZero ((1 / 2 : ℚ) * 32767) ∧
    (renderAudioCore ⟨true, some 0, true⟩
        ⟨true, fun frames channels => List.replicate (frames * channels)
          (1 / 2), true⟩ 2 2 SampleFormat.pcm16 true).pcm16Out =
      convertFloatToPcm16 (List.replicate 4 (1 / 2)) ∧
    (renderAudioCore ⟨true, some 0, true⟩
        ⟨true, fun frames channels => List.replicate (frames * channels)
          (1 / 2), true⟩ 2 2 SampleFormat.pcm16 true).releaseCalls =
      [(2, false)] :=
  ⟨(pcm16_trunc_c5.1 (1 / 2)).2.2 (by norm_num) (by norm_num),
   ((pcm16_trunc_c5.2 ⟨true, some 0, true⟩
      ⟨true, fun frames channels => List.replicate (frames * channels)
        (1 / 2), true⟩ 2 2 0 rfl (by decide) rfl rfl rfl).2.1),
   ((pcm16_trunc_c5.2 ⟨true, some 0, true⟩
      ⟨true, fun frames channels => List.replicate (frames * channels)
        (1 / 2), true⟩ 2 2 0 rfl (by decide) rfl rfl rfl).2.2)⟩

/-- C7 counterexample: on an epoch change with `target_frame = -1` the
decoder sets its local cursor to 0, not to its previous value (here 5), so
"continues from its current cursor unchanged" fails. -/
theorem decode_adopt_c7_counterexample :
    decodeAdoptEpoch 0 5 1 (-1) = (1, 0) ∧ (5 : ℤ) ≠ 0 := by
  constructor
  · rfl
  · decide

/-- C7 (amended): whenever the decoder worker observes an epoch different
from its cached one it adopts the new epoch and repositions its cursor to
`target_frame` when `target_frame ≥ 0`, and resets the cursor to 0 when
`target_frame` is negative (e.g. −1); with an unchanged epoch both are left
untouched. -/
theorem decode_adopt_c7 :
    (∀ (localEpoch currentEpoch : Nat) (cursor target : ℤ),
        currentEpoch ≠ localEpoch →
        decodeAdoptEpoch localEpoch cursor currentEpoch target =
          (currentEpoch, if 0 ≤ target then target else 0)) ∧
    (∀ (localEpoch : Nat) (cursor target : ℤ),
        decodeAdoptEpoch localEpoch cursor localEpoch target =
          (localEpoch, cursor)) := by
  constructor
  · intro localEpoch currentEpoch cursor target h
    rw [decodeAdoptEpoch, if_pos h]
  · intro localEpoch cursor target
    rw [decodeAdoptEpoch, if_neg (by simp)]

theorem decode_adopt_c7_witness :
    decodeAdoptEpoch 3 5 4 7 = (4, if (0 : ℤ) ≤ 7 then 7 else 0) :=
  decode_adopt_c7.1 3 4 5 7 (by decide)

/-- C8 counterexample: with `allow_empty` set, a threshold of 2400 frames
and a ring that holds exactly 1 frame at every observation, the wait never
ends (no exit index over five observations and the exit condition is false
at one buffered frame), whereas the claim says the wait ends as soon as the
ring contains any data. -/
theorem prime_wait_c8_counterexample :
    primeWaitExitIndex 2400 true [1, 1, 1, 1, 1] = none ∧
    primeWaitDone 1 2400 true = false := by
  decide

/-- C8 (amended): the priming wait ends exactly when the observed
availability satisfies the loop's exit condition, namely at least
`threshold_frames` buffered, or — only with `allow_empty` set — a completely
empty ring; a non-empty ring below the threshold keeps waiting, and there is
no time budget.  The wait exits at the first such observation. -/
theorem prime_wait_c8 :
    (∀ available threshold : Nat,
        primeWaitDone available threshold false = true ↔
          threshold ≤ available) ∧
    (∀ available threshold : Nat,
        primeWaitDone available threshold true = true ↔
          (threshold ≤ available ∨ available = 0)) ∧
    (∀ (threshold : Nat) (allowEmpty : Bool) (obs : List Nat) (i : Nat),
        primeWaitExitIndex threshold allowEmpty obs = some i →
        primeWaitDone (obs.getD i 0) threshold allowEmpty = true ∧
        ∀ j, j < i →
          primeWaitDone (obs.getD j 0) threshold allowEmpty = false) := by
  refine ⟨?_, ?_, ?_⟩
  · intro available threshold
    simp [primeWaitDone]
  · intro available threshold
    simp [primeWaitDone]
  · intro threshold allowEmpty obs
    induction obs with
    | nil => intro i h; simp [primeWaitExitIndex] at h
    | cons a rest ih =>
        intro i h
        by_cases hd : primeWaitDone a threshold allowEmpty = true
        · rw [primeWaitExitIndex, if_pos hd] at h
          obtain rfl : i = 0 := by simpa using h.symm
          exact ⟨by simpa using hd, fun j hj => absurd hj (by omega)⟩
        · rw [primeWaitExitIndex, if_neg hd] at h
          obtain ⟨i₂, hi₂, rfl⟩ := Option.map_eq_some'.mp h
          obtain ⟨hdone, hprior⟩ := ih i₂ hi₂
          refine ⟨by simpa using hdone, ?_⟩
          intro j hj
          cases j with
          | zero => simpa using Bool.eq_false_iff.mpr hd
          | succ j₂ => simpa using hprior j₂ (by omega)

theorem prime_wait_c8_witness :
    primeWaitDone (List.getD [1, 0] 1 0) 2 true = true :=
  (prime_wait_c8.2.2 2 true [1, 0] 1 (by decide)).1

/-- C9: Quit is terminal — the engine command loop stops at the first Quit
command, so whatever is enqueued behind it (Play, Pause, Resume, Stop, Seek,
Replay or another Quit) never affects the player state, the decode control
or the endpoint; and once `quit()` has flipped the `running` atomic to
false, further `quit()` calls are no-ops. -/
theorem quit_terminal_c9 :
    (∀ (env : EngineEnv) (s : EngineState) (pre post : List EngCommand),
        processCommands env s (pre ++ EngCommand.quit :: post) =
          processCommands env s (pre ++ [EngCommand.quit])) ∧
    (∀ a : ApiState, (apiQuit a).running = false) ∧
    (∀ a : ApiState, apiQuit (apiQuit a) = apiQuit a) := by
  refine ⟨?_, ?_, ?_⟩
  · intro env s pre post
    induction pre generalizing s with
    | nil => simp [processCommands]
    | cons c rest ih =>
        cases c with
        | play => simpa [processCommands] using ih (handleCommand env s .play)
        | pause => simpa [processCommands] using ih (handleCommand env s .pause)
        | resume =>
            simpa [processCommands] using ih (handleCommand env s .resume)
        | stop => simpa [processCommands] using ih (handleCommand env s .stop)
        | seek x =>
            simpa [processCommands] using ih (handleCommand env s (.seek x))
        | replay =>
            simpa [processCommands] using ih (handleCommand env s .replay)
        | quit => simp [processCommands]
  · intro a
    rw [apiQuit]
    split <;> simp_all
  · intro a
    rw [apiQuit, apiQuit]
    split
    · rename_i h
      split
      · rename_i h₂
        simp at h₂
      · rfl
    · rfl

/-- C6 counterexample: a Seek(10) processed on a 48 kHz engine whose output
endpoint was never initialized (e.g. seek before the first Play) ends with
`seek_target_frame = 480000` and state Playing, but
`render_frame_offset = 0`: `EnsureOutputInitialized` resets the offset after
the seek stored it, contradicting the claim's "render_frame_offset is set to
that same frame value" for every Seek. -/
theorem seek_offset_c6_counterexample :
    (handleCommand okEnv uninitEngine (EngCommand.seek 10)).targetFrame =
      480000 ∧
    (handleCommand okEnv uninitEngine (EngCommand.seek 10)).state =
      PlayerState.playing ∧
    (handleCommand okEnv uninitEngine (EngCommand.seek 10)).renderFrameOffset
      = 0 ∧
    (0 : ℤ) ≠ 480000 := by
  refine ⟨?_, ?_, ?_, by decide⟩
  · simp [handleCommand, okEnv, uninitEngine, beginNewDecodeEpochAndSetTarget,
      setTargetFrame, bumpEpoch, resetBufferingState, pauseDecodeAndWaitIdle,
      setDecodeMode, stopOutputAndResetRenderedFrames, commitPaused,
      startPlaybackWithPriming, ensureOutputInitialized, primeAndStart]
    norm_num [round_eq]
  · simp [handleCommand, okEnv, uninitEngine, beginNewDecodeEpochAndSetTarget,
      setTargetFrame, bumpEpoch, resetBufferingState, pauseDecodeAndWaitIdle,
      setDecodeMode, stopOutputAndResetRenderedFrames, commitPaused,
      startPlaybackWithPriming, ensureOutputInitialized, primeAndStart]
  · simp [handleCommand, okEnv, uninitEngine, beginNewDecodeEpochAndSetTarget,
      setTargetFrame, bumpEpoch, resetBufferingState, pauseDecodeAndWaitIdle,
      setDecodeMode, stopOutputAndResetRenderedFrames, commitPaused,
      startPlaybackWithPriming, ensureOutputInitialized, primeAndStart]

/-- C6 (amended): for every Seek(s) processed while the output endpoint is
already initialized (as in the spec's "while Playing" scenario): the decode
epoch increases by exactly 1, the published seek target frame equals
`round(max(0, s) · sample_rate)`, `render_frame_offset` is set to that same
value, and the post-state is Paused when the prior state was Paused and
otherwise Playing on a successful re-prime and start.  (A first-time
endpoint initialization during the seek instead resets the offset to 0, as
the counterexample shows.) -/
theorem seek_epoch_target_c6 (env : EngineEnv) (s : EngineState)
    (seconds : ℚ)
    (hinit : s.outputInitialized = true) (hstart : env.startOk = true)
    (hepoch : s.epoch + 1 < U64) :
    (handleCommand env s (EngCommand.seek seconds)).epoch = s.epoch + 1 ∧
    (handleCommand env s (EngCommand.seek seconds)).targetFrame =
      round (max 0 seconds * (s.sampleRate : ℚ)) ∧
    (handleCommand env s (EngCommand.seek seconds)).renderFrameOffset =
      round (max 0 seconds * (s.sampleRate : ℚ)) ∧
    (handleCommand env s (EngCommand.seek seconds)).state =
      (if s.state = PlayerState.paused then PlayerState.paused
       else PlayerState.playing) := by
  by_cases hp : s.state = PlayerState.paused <;>
    simp [handleCommand, commitPaused, beginNewDecodeEpochAndSetTarget,
      setTargetFrame, bumpEpoch, resetBufferingState, pauseDecodeAndWaitIdle,
      setDecodeMode, stopOutputAndResetRenderedFrames,
      startPlaybackWithPriming, ensureOutputInitialized, primeAndStart,
      hp, hinit, hstart, Nat.mod_eq_of_lt hepoch]

theorem seek_epoch_target_c6_witness :
    (handleCommand okEnv playingEngine (EngCommand.seek 10)).epoch =
      playingEngine.epoch + 1 ∧
    (handleCommand okEnv playingEngine (EngCommand.seek 10)).targetFrame =
      round (max 0 (10 : ℚ) * (playingEngine.sampleRate : ℚ)) ∧
    (handleCommand okEnv playingEngine
        (EngCommand.seek 10)).renderFrameOffset =
      round (max 0 (10 : ℚ) * (playingEngine.sampleRate : ℚ)) ∧
    (handleCommand okEnv playingEngine (EngCommand.seek 10)).state =
      (if playingEngine.state = PlayerState.paused then PlayerState.paused
       else PlayerState.playing) :=
  seek_epoch_target_c6 okEnv playingEngine 10 rfl rfl (by decide)

end Tomplayer
